import Mathlib

/-
Verification of the JamesCI continuous-integration core.

The definitions below are shallow embeddings of the Python sources:

  * src/jamesci/status.py      - the Status enum (an IntEnum; comparisons and
    Python's min use the underlying integer value, created = 1 .. success = 7).
  * src/jamesci/pipeline.py    - Pipeline.status, Pipeline.__enter__/__exit__,
    PipelineConstructor._assign_id.
  * src/jamesci/legacy_pipeline.py - LegacyPipeline.__enter__/__exit__.
  * src/jamesci/steps.py       - Steps.__init__ and Steps.dump.
  * src/bin/schedule.py        - the stage loop of the scheduler.
  * src/bin/run.py             - the step-execution engine and its
    ExceptionHandler.
  * src/bin/runner.py          - the legacy step-execution engine and its
    ExceptionHandler.

Python's min over an empty sequence raises ValueError; every such call site is
embedded as an Option, none standing for the raised exception.  The modern Job
class (imported by src/jamesci/pipeline.py as jamesci.job.Job / WriteableJob
and used by run.py and schedule.py) is not part of the tree - only its callers
are - so its attributes (stage) and methods (start_job, finish_job) are
modelled from the spec where noted.
-/

/-- Status from src/jamesci/status.py: an IntEnum whose members are declared
in the order created, pending, running, canceled, errored, failed, success,
so enum.auto assigns the values 1..7 and comparisons use those values. -/
inductive Status where
  | created
  | pending
  | running
  | canceled
  | errored
  | failed
  | success
deriving DecidableEq

/-- The integer value enum.auto assigns to each Status member (1..7). -/
def Status.toNat : Status → Nat
  | .created => 1
  | .pending => 2
  | .running => 3
  | .canceled => 4
  | .errored => 5
  | .failed => 6
  | .success => 7

/-- Python's min of two Status values compares the IntEnum values and keeps
the first argument on a tie. -/
def statusMin (a b : Status) : Status :=
  if a.toNat ≤ b.toNat then a else b

/-- Python's min over an iterable of statuses: ValueError (none) on an empty
iterable, otherwise the left fold of two-argument min over the remainder,
seeded with the first element. -/
def minStatus? (l : List Status) : Option Status :=
  match l with
  | [] => none
  | h :: t => some (t.foldl statusMin h)

/-- Aggregation as the spec words it (section 4.2 and section 8): the minimum
of the collection under the declared total order, with the empty collection
aggregating to success.  Since success is the greatest element, the fold
computes the minimum on any non-empty collection. -/
def specAggregate (l : List Status) : Status :=
  l.foldr statusMin Status.success

theorem statusMin_success (a : Status) : statusMin a Status.success = a := by
  cases a <;> rfl

theorem statusMin_assoc (a b c : Status) :
    statusMin (statusMin a b) c = statusMin a (statusMin b c) := by
  cases a <;> cases b <;> cases c <;> rfl

theorem foldl_statusMin (t : List Status) :
    ∀ h : Status, t.foldl statusMin h = statusMin h (t.foldr statusMin Status.success) := by
  induction t with
  | nil => intro h; simp [List.foldl, List.foldr, statusMin_success]
  | cons c t ih =>
      intro h
      simp only [List.foldl, List.foldr]
      rw [ih (statusMin h c), statusMin_assoc]

theorem minStatus?_cons (h : Status) (t : List Status) :
    minStatus? (h :: t) = some (specAggregate (h :: t)) := by
  simp only [minStatus?, specAggregate, List.foldr, foldl_statusMin]

/-- A job as it appears to Pipeline.status and the scheduler: its dict key
(name), its stage attribute (Modelled from the spec: the modern Job class is
missing from the tree; per section 3 a Job's stage is "name or unset", unset
placing it in the implicit default stage, so it is an Option) and its stored
status. -/
structure JobRec where
  name : String
  stage : Option String
  status : Status
deriving DecidableEq

/-- A pipeline as seen by Pipeline.status and schedule.py: the optional
declared stage list (data.get, so absent is none) and the jobs mapping in
insertion order. -/
structure Pipeline where
  stages : Option (List String)
  jobs : List JobRec
deriving DecidableEq

/-- The stage sequence both pipeline.py (line 344) and schedule.py (line 83)
iterate: the declared stages, or a single None placeholder when the stages
attribute is falsy (absent or the empty list). -/
def stagesIter (stages : Option (List String)) : List (Option String) :=
  match stages with
  | none => [none]
  | some [] => [none]
  | some (s :: rest) => (s :: rest).map some

/-- The jobs selected for a stage: Python's `job.stage == stage`. -/
def stageJobs (jobs : List JobRec) (st : Option String) : List JobRec :=
  jobs.filter (fun j => j.stage = st)

/-- The stage loop of Pipeline.status (pipeline.py lines 344-355): the minimum
status of the current stage's jobs (ValueError, i.e. none, when the stage has
no jobs); the first stage minimum that is not success is returned, otherwise
the next stage is inspected, and success is returned after the last stage. -/
def pipelineStatusGo (jobs : List JobRec) : List (Option String) → Option Status
  | [] => some Status.success
  | st :: rest =>
      match minStatus? ((stageJobs jobs st).map (fun j => j.status)) with
      | none => none
      | some s => if s = Status.success then pipelineStatusGo jobs rest else some s

/-- Pipeline.status as the code computes it; none models the ValueError that
Python's min raises when a stage selects no jobs. -/
def pipelineStatus (p : Pipeline) : Option Status :=
  pipelineStatusGo p.jobs (stagesIter p.stages)

/-- The stage-by-stage computation as the spec words it: aggregate each
stage's job statuses with specAggregate and return the first aggregate that is
not success, else success. -/
def specStatusGo (jobs : List JobRec) : List (Option String) → Status
  | [] => Status.success
  | st :: rest =>
      let a := specAggregate ((stageJobs jobs st).map (fun j => j.status))
      if a = Status.success then specStatusGo jobs rest else a

/-- The spec's pipeline status over the same stage iteration and the same
per-stage job selection as the code. -/
def specPipelineStatus (p : Pipeline) : Status :=
  specStatusGo p.jobs (stagesIter p.stages)

/-- The claim C1 status computation, following the claim's words exactly: when
stages are declared they are iterated in order with each stage aggregating the
statuses of its own jobs, but when no stages are declared there is "one
implicit stage holding all jobs", i.e. the aggregate ranges over every job of
the pipeline regardless of its stage attribute. -/
def claimPipelineStatus (p : Pipeline) : Status :=
  match p.stages with
  | some (s :: rest) => specStatusGo p.jobs ((s :: rest).map some)
  | _ => specAggregate (p.jobs.map (fun j => j.status))

theorem statusGo_eq (jobs : List JobRec) :
    ∀ L : List (Option String), (∀ st ∈ L, stageJobs jobs st ≠ []) →
      pipelineStatusGo jobs L = some (specStatusGo jobs L) := by
  intro L
  induction L with
  | nil => intro _; rfl
  | cons st rest ih =>
      intro h
      have hne : stageJobs jobs st ≠ [] := h st (by simp)
      obtain ⟨j, t, hjt⟩ : ∃ j t, stageJobs jobs st = j :: t := by
        cases hcase : stageJobs jobs st with
        | nil => exact absurd hcase hne
        | cons j t => exact ⟨j, t, rfl⟩
      have hrest : pipelineStatusGo jobs rest = some (specStatusGo jobs rest) :=
        ih (fun st' hst' => h st' (List.mem_cons_of_mem _ hst'))
      simp only [pipelineStatusGo, specStatusGo, hjt, List.map_cons, minStatus?_cons]
      by_cases hs :
          specAggregate (j.status :: t.map (fun jb => jb.status)) = Status.success
      · simp [hs, hrest]
      · simp [hs]

/-- C1 (amended): for a pipeline every iterated stage of which selects at
least one job, Pipeline.status iterates the declared stages in order (or the
single None placeholder stage when no stages are declared, which selects
exactly the jobs whose stage attribute is unset), aggregates each stage's job
statuses as their minimum under the order created < pending < running <
canceled < errored < failed < success, and returns the first stage aggregate
that is not success, or success when every stage aggregates to success. -/
theorem pipeline_status_first_failing_stage (p : Pipeline)
    (h : ∀ st ∈ stagesIter p.stages, stageJobs p.jobs st ≠ []) :
    pipelineStatus p = some (specPipelineStatus p) :=
  statusGo_eq p.jobs (stagesIter p.stages) h

/-- Concrete staged pipeline for the C1 witness: the build stage aggregates to
failed, so the pipeline status is failed before deploy is even inspected. -/
def pipelineC1w : Pipeline :=
  ⟨some ["build", "deploy"],
   [⟨"compile", some "build", Status.failed⟩,
    ⟨"ship", some "deploy", Status.pending⟩]⟩

theorem pipeline_status_first_failing_stage_witness :
    pipelineStatus pipelineC1w = some (specPipelineStatus pipelineC1w) :=
  pipeline_status_first_failing_stage pipelineC1w (by decide)

/-- Pipeline with no declared stages but one job carrying an explicit stage
name: the code's implicit stage only selects the job whose stage is unset. -/
def pipelineC1mixed : Pipeline :=
  ⟨none,
   [⟨"plain", none, Status.success⟩,
    ⟨"staged", some "extra", Status.failed⟩]⟩

/-- C1 counterexample: on a pipeline with no declared stages and a job that
carries an explicit stage name, the code's implicit stage selects only the
jobs whose stage attribute is unset (job.stage == None), so Pipeline.status
returns success, while the claim's "one implicit stage holding all jobs"
aggregates every job and yields failed. -/
theorem pipeline_status_implicit_stage_cex :
    pipelineStatus pipelineC1mixed = some Status.success ∧
    claimPipelineStatus pipelineC1mixed = Status.failed ∧
    pipelineStatus pipelineC1mixed ≠ some (claimPipelineStatus pipelineC1mixed) := by
  refine ⟨rfl, rfl, ?_⟩
  decide

theorem stagesIter_cons (s : Option (List String)) :
    ∃ st rest, stagesIter s = st :: rest := by
  cases s with
  | none => exact ⟨none, [], rfl⟩
  | some l =>
      cases l with
      | nil => exact ⟨none, [], rfl⟩
      | cons a t => exact ⟨some a, t.map some, rfl⟩

/-- C9 (amended): Python's min raises ValueError on an empty sequence, so the
aggregation of an empty collection of statuses is an error (none), not
success, and Pipeline.status on a pipeline whose job set is empty raises
instead of returning success: its very first stage selects no jobs. -/
theorem empty_aggregate_raises :
    minStatus? [] = none ∧
    ∀ p : Pipeline, p.jobs = [] → pipelineStatus p = none := by
  refine ⟨rfl, ?_⟩
  intro p h
  obtain ⟨st, rest, hiter⟩ := stagesIter_cons p.stages
  simp [pipelineStatus, hiter, pipelineStatusGo, stageJobs, h, minStatus?]

theorem empty_aggregate_raises_witness :
    pipelineStatus ⟨none, []⟩ = none :=
  empty_aggregate_raises.2 ⟨none, []⟩ rfl

/-- Pipeline with an empty job set, the input on which claim C9 fails. -/
def pipelineC9 : Pipeline := ⟨none, []⟩

/-- C9 counterexample: a pipeline with an empty job set does not reach
success; Pipeline.status raises ValueError (min of an empty sequence),
embedded here as none. -/
theorem empty_pipeline_status_cex :
    pipelineStatus pipelineC9 = none ∧
    pipelineStatus pipelineC9 ≠ some Status.success := by
  refine ⟨rfl, ?_⟩
  decide

/-- Python truthiness of the stage value in schedule.py line 95 (`if stage:`):
None is falsy, and so is the empty string. -/
def stageTruthy (st : Option String) : Bool :=
  match st with
  | none => false
  | some s => !(s == "")

/-- The stage gate of schedule.py (lines 95-99): scheduling continues past a
stage when the stage value is falsy (no gate at all), or when the minimum of
the stage's job statuses is success.  It stops when the aggregate is some
other status (sys.exit) or when the stage selects no jobs, in which case min
raises ValueError and the script aborts. -/
def stageGate (jobs : List JobRec) (st : Option String) : Bool :=
  if stageTruthy st then
    match minStatus? ((stageJobs jobs st).map (fun j => j.status)) with
    | none => false
    | some s => s = Status.success
  else true

/-- The stage loop of schedule.py (lines 83-99), returning the names of the
jobs handed to james-run, in invocation order.  Each stage first invokes every
job whose stage attribute equals the current stage; later stages run only if
the gate lets the loop continue. -/
def scheduleGo (jobs : List JobRec) : List (Option String) → List String
  | [] => []
  | st :: rest =>
      (stageJobs jobs st).map (fun j => j.name) ++
        (if stageGate jobs st then scheduleGo jobs rest else [])

/-- The scheduler applied to a stored pipeline, with each job's status field
standing for the status the runner has persisted by the time the stage's gate
reloads the pipeline. -/
def scheduleRun (p : Pipeline) : List String :=
  scheduleGo p.jobs (stagesIter p.stages)

theorem mem_stage_names {jobs : List JobRec} {st : Option String} {x : String}
    (hx : x ∈ (stageJobs jobs st).map (fun j => j.name)) :
    ∃ jb ∈ jobs, jb.name = x ∧ jb.stage = st := by
  obtain ⟨jb, hjb, hname⟩ := List.mem_map.1 hx
  have hf := List.mem_filter.1 hjb
  exact ⟨jb, hf.1, hname, by simpa using hf.2⟩

theorem stageGate_false {jobs : List JobRec} {st : Option String}
    (htr : stageTruthy st = true)
    (hagg : minStatus? ((stageJobs jobs st).map (fun j => j.status)) ≠
      some Status.success) :
    stageGate jobs st = false := by
  unfold stageGate
  rw [if_pos htr]
  cases hmin : minStatus? ((stageJobs jobs st).map (fun j => j.status)) with
  | none => rfl
  | some s =>
      have hs : ¬ s = Status.success := fun h => hagg (h ▸ hmin)
      simp [hs]

theorem scheduleGo_stop (jobs : List JobRec) (st : Option String)
    (post : List (Option String))
    (htr : stageTruthy st = true)
    (hagg : minStatus? ((stageJobs jobs st).map (fun j => j.status)) ≠
      some Status.success) :
    ∀ pre, ∀ x ∈ scheduleGo jobs (pre ++ st :: post),
      ∃ jb ∈ jobs, jb.name = x ∧ (jb.stage ∈ pre ∨ jb.stage = st) := by
  intro pre
  induction pre with
  | nil =>
      intro x hx
      simp [List.nil_append, scheduleGo, stageGate_false htr hagg] at hx
      obtain ⟨jb, hjb, hname⟩ := hx
      have hf := List.mem_filter.1 hjb
      exact ⟨jb, hf.1, hname, Or.inr (by simpa using hf.2)⟩
  | cons q pre' ih =>
      intro x hx
      simp only [List.cons_append, scheduleGo] at hx
      have hlift :
          x ∈ (stageJobs jobs q).map (fun j => j.name) ∨
          x ∈ scheduleGo jobs (pre' ++ st :: post) := by
        cases List.mem_append.1 hx with
        | inl h => exact Or.inl h
        | inr h =>
            by_cases hg : stageGate jobs q = true
            · rw [if_pos hg] at h
              exact Or.inr h
            · rw [if_neg hg] at h
              exact absurd h (List.not_mem_nil x)
      cases hlift with
      | inl h =>
          obtain ⟨jb, hjb, hname, hstage⟩ := mem_stage_names h
          exact ⟨jb, hjb, hname, Or.inl (hstage ▸ List.mem_cons_self q pre')⟩
      | inr h =>
          obtain ⟨jb, hjb, hname, hor⟩ := ih x h
          cases hor with
          | inl hmem => exact ⟨jb, hjb, hname, Or.inl (List.mem_cons_of_mem q hmem)⟩
          | inr hst => exact ⟨jb, hjb, hname, Or.inr hst⟩

/-- C3 (amended): for a pipeline with declared stages, if the aggregate status
of the jobs of a stage whose declared name is truthy (non-empty) is not
success, then no job that belongs only to later stages is ever handed to
james-run; a stage declared as the empty string is falsy in Python and is not
gated by schedule.py line 95. -/
theorem stage_barrier_blocks_later_stages (p : Pipeline)
    (pre post : List (Option String)) (st : Option String) (j : JobRec)
    (hdecomp : stagesIter p.stages = pre ++ st :: post)
    (htr : stageTruthy st = true)
    (hagg : minStatus? ((stageJobs p.jobs st).map (fun jb => jb.status)) ≠
      some Status.success)
    (hj : j ∈ p.jobs)
    (_hpost : j.stage ∈ post)
    (hpre : j.stage ∉ pre)
    (hst : j.stage ≠ st)
    (hnames : (p.jobs.map (fun jb => jb.name)).Nodup) :
    j.name ∉ scheduleRun p := by
  intro hmem
  rw [scheduleRun, hdecomp] at hmem
  obtain ⟨jb, hjb, hname, hor⟩ :=
    scheduleGo_stop p.jobs st post htr hagg pre j.name hmem
  have heq : jb = j := List.inj_on_of_nodup_map hnames hjb hj hname
  cases hor with
  | inl h => exact hpre (heq ▸ h)
  | inr h => exact hst (heq ▸ h)

/-- The deploy-stage job of the C3 witness pipeline. -/
def jobC3deploy : JobRec := ⟨"b", some "deploy", Status.pending⟩

/-- C3 witness pipeline: the build stage failed, the deploy stage is pending. -/
def pipelineC3w : Pipeline :=
  ⟨some ["build", "deploy"], [⟨"a", some "build", Status.failed⟩, jobC3deploy]⟩

theorem stage_barrier_blocks_later_stages_witness :
    "b" ∉ scheduleRun pipelineC3w :=
  stage_barrier_blocks_later_stages pipelineC3w [] [some "deploy"]
    (some "build") jobC3deploy rfl (by decide) (by decide) (by decide)
    (by decide) (by decide) (by decide) (by decide)

/-- Pipeline whose first declared stage is named by the empty string and has a
failed job. -/
def pipelineC3empty : Pipeline :=
  ⟨some ["", "deploy"],
   [⟨"a", some "", Status.failed⟩, ⟨"b", some "deploy", Status.success⟩]⟩

/-- C3 counterexample: the first stage (named by the empty string) aggregates
to failed, yet the scheduler still invokes the deploy-stage job, because
schedule.py gates a stage with `if stage:` and the empty string is falsy. -/
theorem empty_stage_name_skips_barrier_cex :
    minStatus?
      ((stageJobs pipelineC3empty.jobs (some "")).map (fun j => j.status)) =
      some Status.failed ∧
    "b" ∈ scheduleRun pipelineC3empty := by
  refine ⟨rfl, ?_⟩
  decide

/-- The parsed contents of a pipeline.yml record, reduced to the per-job
stored statuses that the runner mutates. -/
def PRecord : Type := List (String × Status)

instance : DecidableEq PRecord := by
  unfold PRecord
  infer_instance

/-- The pipeline record file together with its lock bit. -/
structure StoreState where
  disk : PRecord
  locked : Bool
deriving DecidableEq

/-- Pipeline.__enter__ (pipeline.py lines 228-256) and
LegacyPipeline.__enter__ (legacy_pipeline.py lines 124-136): lock the file
exclusively and re-read the on-disk state into a writeable view. -/
def pipelineEnter (st : StoreState) : StoreState × PRecord :=
  ({ st with locked := true }, st.disk)

/-- Pipeline.__exit__ (pipeline.py lines 258-278): when an exception exits the
context, return without saving (and without unlocking); otherwise save the
in-memory state to disk and unlock. -/
def pipelineExit (excType : Bool) (mem : PRecord) (st : StoreState) : StoreState :=
  if excType then st else { disk := mem, locked := false }

/-- LegacyPipeline.__exit__ (legacy_pipeline.py lines 138-145): save the
current in-memory data and unlock, taking no notice of the exception type. -/
def legacyPipelineExit (_excType : Bool) (mem : PRecord) (_st : StoreState) :
    StoreState :=
  { disk := mem, locked := false }

/-- A with-block over a modern Pipeline: the body receives the freshly loaded
view and returns the (in-place mutated) data together with whether it raised. -/
def withPipeline (st : StoreState) (fn : PRecord → PRecord × Bool) : StoreState :=
  let ev := pipelineEnter st
  let res := fn ev.2
  pipelineExit res.2 res.1 ev.1

/-- A with-block over a LegacyPipeline. -/
def withLegacyPipeline (st : StoreState) (fn : PRecord → PRecord × Bool) :
    StoreState :=
  let ev := pipelineEnter st
  let res := fn ev.2
  legacyPipelineExit res.2 res.1 ev.1

/-- Setting one job's stored status inside the writeable view. -/
def setJobStatus (r : PRecord) (n : String) (s : Status) : PRecord :=
  r.map (fun p => if p.1 = n then (n, s) else p)

/-- C2 (amended): mutating the record inside the modern Pipeline context and
exiting normally persists the mutated state, and raising leaves the on-disk
record unchanged; but the legacy pipeline context (LegacyPipeline.__exit__)
saves the mutated in-memory state even when an exception exits the block. -/
theorem exclusive_context_commit_semantics (st : StoreState)
    (body : PRecord → PRecord) :
    (withPipeline st (fun r => (body r, false))).disk = body st.disk ∧
    (withPipeline st (fun r => (body r, true))).disk = st.disk ∧
    (withLegacyPipeline st (fun r => (body r, true))).disk = body st.disk :=
  ⟨rfl, rfl, rfl⟩

/-- The on-disk record of the C2 counterexample before the with-block. -/
def recC2 : PRecord := [("build", Status.pending)]

/-- C2 counterexample: a block over a LegacyPipeline that sets the build job
to success and then raises still overwrites the on-disk record with the
mutated state, so the record is not left byte-for-byte unchanged. -/
theorem legacy_context_saves_on_exception_cex :
    (withLegacyPipeline ⟨recC2, false⟩
        (fun r => (setJobStatus r "build" Status.success, true))).disk =
      [("build", Status.success)] ∧
    (withLegacyPipeline ⟨recC2, false⟩
        (fun r => (setJobStatus r "build" Status.success, true))).disk ≠
      recC2 := by
  refine ⟨rfl, ?_⟩
  decide

/-- The new_id helper of PipelineConstructor._assign_id (pipeline.py lines
422-438): the maximum of the listed pipeline-id directories plus one, or 1
when the project directory is missing or empty. -/
def new_id (pipelines : List Nat) : Nat :=
  match pipelines with
  | [] => 1
  | h :: t => t.foldl Nat.max h + 1

/-- The retry loop of _assign_id (pipeline.py lines 449-465) over the
remaining attempt indices: each attempt lists the directory (the listing
oracle), computes a fresh candidate, and tries os.makedirs, which fails
exactly when the exs oracle reports the candidate directory as existing; a
FileExistsError is suppressed and the next attempt starts from a new listing. -/
def assignIdGo (listing : Nat → List Nat) (exs : Nat → Nat → Bool) :
    List Nat → Except String Nat
  | [] => Except.error "other processes block ID assignment"
  | i :: rest =>
      if exs i (new_id (listing i)) then assignIdGo listing exs rest
      else Except.ok (new_id (listing i))

/-- _assign_id: three attempts (range(3)), then OSError. -/
def assign_id (listing : Nat → List Nat) (exs : Nat → Nat → Bool) :
    Except String Nat :=
  assignIdGo listing exs [0, 1, 2]

theorem natMax_assoc (a b c : Nat) :
    Nat.max (Nat.max a b) c = Nat.max a (Nat.max b c) := by
  simp only [Nat.max_def]
  split_ifs <;> omega

theorem foldl_natMax (t : List Nat) :
    ∀ h : Nat, t.foldl Nat.max h = Nat.max h (t.foldr Nat.max 0) := by
  induction t with
  | nil => intro h; simp [List.foldl, List.foldr]
  | cons c t ih =>
      intro h
      simp only [List.foldl, List.foldr]
      rw [ih (Nat.max h c), natMax_assoc]

theorem new_id_spec (l : List Nat) : new_id l = l.foldr Nat.max 0 + 1 := by
  cases l with
  | nil => rfl
  | cons h t => simp only [new_id, List.foldr, foldl_natMax]

/-- C4: each allocation attempt proposes max(existing ids) + 1 (1 when none
exist, uniformly the successor of the fold of max over the listing); a
candidate is committed exactly when its all-or-nothing directory creation does
not collide, each collision retries from a fresh listing, and after the three
attempts of range(3) the protocol fails with the fatal OSError "other
processes block ID assignment", no attempt having created a directory. -/
theorem assign_id_protocol (listing : Nat → List Nat) (exs : Nat → Nat → Bool) :
    (∀ l : List Nat, new_id l = l.foldr Nat.max 0 + 1) ∧
    (assign_id listing exs = Except.error "other processes block ID assignment" ↔
      (exs 0 (new_id (listing 0)) = true ∧ exs 1 (new_id (listing 1)) = true ∧
       exs 2 (new_id (listing 2)) = true)) ∧
    (∀ c : Nat, assign_id listing exs = Except.ok c ↔
      ((exs 0 (new_id (listing 0)) = false ∧ c = new_id (listing 0)) ∨
       (exs 0 (new_id (listing 0)) = true ∧ exs 1 (new_id (listing 1)) = false ∧
         c = new_id (listing 1)) ∨
       (exs 0 (new_id (listing 0)) = true ∧ exs 1 (new_id (listing 1)) = true ∧
         exs 2 (new_id (listing 2)) = false ∧ c = new_id (listing 2)))) := by
  refine ⟨new_id_spec, ?_, ?_⟩ <;>
  · cases h0 : exs 0 (new_id (listing 0)) <;>
    cases h1 : exs 1 (new_id (listing 1)) <;>
    cases h2 : exs 2 (new_id (listing 2)) <;>
    simp [assign_id, assignIdGo, h0, h1, h2, eq_comm]

theorem assign_id_protocol_witness :
    assign_id (fun _ => []) (fun _ _ => true) =
      Except.error "other processes block ID assignment" :=
  (assign_id_protocol (fun _ => []) (fun _ _ => true)).2.1.mpr ⟨rfl, rfl, rfl⟩

/-- A value a step maps to in the configuration dictionary handed to Steps:
either a single command string or a list of command strings (the shapes the
claim restricts to). -/
inductive StepVal where
  | str : String → StepVal
  | list : List String → StepVal
deriving DecidableEq

/-- Steps.__init__ (steps.py lines 47-51): a value that is not a list is
wrapped into a one-element list. -/
def normalizeVal : StepVal → List String
  | StepVal.str s => [s]
  | StepVal.list l => l

/-- Steps.steps (steps.py lines 86-88): the valid job steps, in order. -/
def validSteps : List String :=
  ["before_install", "install", "before_script", "script", "after_success",
   "after_failure", "before_deploy", "deploy", "after_deploy", "after_script"]

/-- Steps.__init__ over an explicit list of step names: iterate the names in
order, keep those defined in data (the _available_steps generator) and store
the normalized command tuple under the step name. -/
def stepsInitOn (names : List String) (data : List (String × StepVal)) :
    List (String × List String) :=
  names.filterMap
    (fun step => (List.lookup step data).map (fun v => (step, normalizeVal v)))

/-- Steps.__init__ (steps.py lines 32-51), producing the step dictionary in
insertion order. -/
def stepsInit (data : List (String × StepVal)) : List (String × List String) :=
  stepsInitOn validSteps data

/-- The value Steps.dump (steps.py line 77) emits for one step when defined:
commands[0] raises IndexError on an empty tuple (none); a single command is
emitted as a bare string, several commands as a list. -/
def dumpVal (cmds : List String) : Option StepVal :=
  match cmds with
  | [] => none
  | [c] => some (StepVal.str c)
  | cs => some (StepVal.list cs)

/-- The total variant of dumpVal used to describe its successful results. -/
def dumpValT (cmds : List String) : StepVal :=
  match cmds with
  | [c] => StepVal.str c
  | cs => StepVal.list cs

/-- Steps.dump (steps.py lines 60-78): the dict comprehension over all stored
steps; the whole dump raises (none) as soon as one step has an empty tuple. -/
def stepsDump : List (String × List String) → Option (List (String × StepVal))
  | [] => some []
  | p :: rest =>
      match dumpVal p.2 with
      | none => none
      | some v => (stepsDump rest).map (fun r => (p.1, v) :: r)

theorem lookup_map_value (f : List String → StepVal)
    (l : List (String × List String)) (k : String) :
    List.lookup k (l.map (fun p => (p.1, f p.2))) = (List.lookup k l).map f := by
  induction l with
  | nil => rfl
  | cons p rest ih =>
      cases hbe : (k == p.1) <;>
        simp [List.lookup, hbe, ih]

theorem lookup_mem {k : String} {v : StepVal} :
    ∀ {l : List (String × StepVal)}, List.lookup k l = some v → (k, v) ∈ l := by
  intro l
  induction l with
  | nil => intro h; cases h
  | cons p rest ih =>
      intro h
      cases hbe : (k == p.1) with
      | true =>
          simp only [List.lookup, hbe] at h
          injection h with h2
          have hk : k = p.1 := eq_of_beq hbe
          have hkv : (k, v) = p := by rw [hk, ← h2]
          exact hkv ▸ List.mem_cons_self p rest
      | false =>
          simp only [List.lookup, hbe] at h
          exact List.mem_cons_of_mem p (ih h)

theorem lookup_stepsInitOn_not_mem (names : List String)
    (data : List (String × StepVal)) (s : String) (h : s ∉ names) :
    List.lookup s (stepsInitOn names data) = none := by
  induction names with
  | nil => rfl
  | cons n rest ih =>
      have hs : s ≠ n := fun he => h (he ▸ List.mem_cons_self n rest)
      have hrest : s ∉ rest := fun hm => h (List.mem_cons_of_mem n hm)
      have hbe : (s == n) = false := beq_eq_false_iff_ne.2 hs
      cases hl : List.lookup n data with
      | none => simpa [stepsInitOn, List.filterMap_cons, hl] using ih hrest
      | some v =>
          simpa [stepsInitOn, List.filterMap_cons, hl, List.lookup, hbe]
            using ih hrest

theorem lookup_stepsInitOn (names : List String)
    (data : List (String × StepVal)) (hnd : names.Nodup) (s : String)
    (hs : s ∈ names) :
    List.lookup s (stepsInitOn names data) =
      (List.lookup s data).map normalizeVal := by
  induction names with
  | nil => cases hs
  | cons n rest ih =>
      have hnd' := List.nodup_cons.1 hnd
      by_cases he : s = n
      · subst he
        cases hl : List.lookup s data with
        | none =>
            simpa [stepsInitOn, List.filterMap_cons, hl] using
              lookup_stepsInitOn_not_mem rest data s hnd'.1
        | some v =>
            simp [stepsInitOn, List.filterMap_cons, hl, List.lookup]
      · have hsrest : s ∈ rest := (List.mem_cons.1 hs).resolve_left he
        have hbe : (s == n) = false := beq_eq_false_iff_ne.2 he
        cases hl : List.lookup n data with
        | none =>
            simpa [stepsInitOn, List.filterMap_cons, hl] using
              ih hnd'.2 hsrest
        | some v =>
            simpa [stepsInitOn, List.filterMap_cons, hl, List.lookup, hbe]
              using ih hnd'.2 hsrest

theorem stepsInit_values_ne_nil (data : List (String × StepVal))
    (h : ∀ p ∈ data, p.1 ∈ validSteps → normalizeVal p.2 ≠ []) :
    ∀ q ∈ stepsInit data, q.2 ≠ [] := by
  intro q hq
  obtain ⟨s, hsmem, hsq⟩ := List.mem_filterMap.1 hq
  cases hl : List.lookup s data with
  | none => rw [hl] at hsq; cases hsq
  | some v =>
      rw [hl] at hsq
      injection hsq with h2
      have hmem : (s, v) ∈ data := lookup_mem hl
      have hne := h (s, v) hmem hsmem
      rw [← h2]
      exact hne

theorem stepsDump_eq (steps : List (String × List String))
    (h : ∀ p ∈ steps, p.2 ≠ []) :
    stepsDump steps = some (steps.map (fun p => (p.1, dumpValT p.2))) := by
  induction steps with
  | nil => rfl
  | cons p rest ih =>
      have hp : p.2 ≠ [] := h p (List.mem_cons_self p rest)
      have hv : dumpVal p.2 = some (dumpValT p.2) := by
        cases hc : p.2 with
        | nil => exact absurd hc hp
        | cons c cs => cases cs <;> rfl
      simp [stepsDump, hv, ih (fun q hq => h q (List.mem_cons_of_mem p hq))]

theorem normalize_dumpValT (cmds : List String) (h : cmds ≠ []) :
    normalizeVal (dumpValT cmds) = cmds := by
  cases cmds with
  | nil => exact absurd rfl h
  | cons c cs => cases cs <;> rfl

theorem validSteps_nodup : validSteps.Nodup := by decide

theorem stepsInitOn_ext (names : List String)
    (d1 d2 : List (String × StepVal))
    (h : ∀ s ∈ names,
      (List.lookup s d1).map normalizeVal = (List.lookup s d2).map normalizeVal) :
    stepsInitOn names d1 = stepsInitOn names d2 := by
  unfold stepsInitOn
  apply List.filterMap_congr
  intro s hs
  calc (List.lookup s d1).map (fun v => (s, normalizeVal v))
      = ((List.lookup s d1).map normalizeVal).map (fun c => (s, c)) := by
        cases List.lookup s d1 <;> rfl
    _ = ((List.lookup s d2).map normalizeVal).map (fun c => (s, c)) := by
        rw [h s hs]
    _ = (List.lookup s d2).map (fun v => (s, normalizeVal v)) := by
        cases List.lookup s d2 <;> rfl

/-- C10: on a configuration whose valid defined steps each map to a non-empty
command list or to a single command string, Steps normalizes every step to its
command tuple, dump emits one-command steps as bare strings and multi-command
steps as lists, and rebuilding Steps from the dump reproduces the original
step mapping. -/
theorem steps_round_trip (data : List (String × StepVal))
    (h : ∀ p ∈ data, p.1 ∈ validSteps → normalizeVal p.2 ≠ []) :
    (stepsDump (stepsInit data)).map stepsInit = some (stepsInit data) := by
  rw [stepsDump_eq (stepsInit data) (stepsInit_values_ne_nil data h)]
  have hinit :
      stepsInit ((stepsInit data).map (fun p => (p.1, dumpValT p.2))) =
        stepsInit data := by
    apply stepsInitOn_ext
    intro s hs
    rw [lookup_map_value dumpValT (stepsInit data) s]
    simp only [stepsInit]
    rw [lookup_stepsInitOn validSteps data validSteps_nodup s hs]
    cases hl : List.lookup s data with
    | none => rfl
    | some v =>
        have hne : normalizeVal v ≠ [] := h (s, v) (lookup_mem hl) hs
        simp [normalize_dumpValT _ hne]
  rw [Option.map_some', hinit]

/-- Concrete configuration for the C10 witness: one single-command step (the
bare-string dump shape) and one two-command step (the list dump shape). -/
def dataC10 : List (String × StepVal) :=
  [("script", StepVal.str "true"), ("install", StepVal.list ["a", "b"])]

theorem steps_round_trip_witness :
    (stepsDump (stepsInit dataC10)).map stepsInit = some (stepsInit dataC10) :=
  steps_round_trip dataC10 (by decide)

/-- The observable state of one job execution: the stored status, the start
and end timestamps of the job's meta data, a tick counter driving the clock,
and the ordered trace of shell commands the engine actually executed. -/
structure EngineSt where
  status : Status
  metaStart : Option Nat
  metaEnd : Option Nat
  tick : Nat
  trace : List String
deriving DecidableEq

/-- The state of a job before the runner touches it. -/
def initialEngineSt : EngineSt :=
  { status := Status.pending, metaStart := none, metaEnd := none,
    tick := 0, trace := [] }

/-- Modelled from the spec: Job.start_job of the modern Job class (called via
`with job as j: j.start_job()` in run.py line 256-257 but missing from the
tree).  Per spec section 4.5 it sets the status to running and records the
start timestamp, persisted under the exclusive lock. -/
def startJob (clock : Nat → Nat) (st : EngineSt) : EngineSt :=
  { st with
    status := Status.running
    metaStart := some (clock st.tick)
    tick := st.tick + 1 }

/-- Modelled from the spec: Job.finish_job of the modern Job class (called by
run.py finish_job, missing from the tree) and the finish_job helper of
runner.py lines 132-149, which is in the tree: set the given terminal status
and the end timestamp, persisted under the exclusive lock. -/
def finishJob (clock : Nat → Nat) (s : Status) (st : EngineSt) : EngineSt :=
  { st with
    status := s
    metaEnd := some (clock st.tick)
    tick := st.tick + 1 }

/-- Shell.run (shell.py lines 59-96): execute the commands in declared order,
stopping at (and including in the trace) the first command whose exit status
is non-zero, in which case CalledProcessError is re-raised (false). -/
def shellRun (exec : String → Bool) : List String → EngineSt → EngineSt × Bool
  | [], st => (st, true)
  | c :: cs, st =>
      let st1 :=
        { st with
          trace := st.trace ++ [c]
          tick := st.tick + 1 }
      if exec c then shellRun exec cs st1 else (st1, false)

/-- The runner configuration fields the engine consults: the optional prolog
script and the already-formatted repository URL. -/
structure RunnerCfg where
  prolog : Option String
  gitUrl : String
deriving DecidableEq

/-- The job as run.py sees it: job.steps (the ChainMap of the job's Steps over
the pipeline's Steps, with only valid step names as keys), the resolved
git.depth and git.submodules, and the pipeline revision. -/
structure JobSpec where
  steps : List (String × List String)
  gitDepth : Int
  gitSubmodules : Bool
  revision : String
deriving DecidableEq

/-- Step lookup in a steps mapping (`step in job.steps` / `job.steps[step]`). -/
def getStep (steps : List (String × List String)) (name : String) :
    Option (List String) :=
  List.lookup name steps

/-- git_commands (run.py lines 136-169): no commands when the resolved depth
is not positive, else clone then checkout, plus the submodule update unless
disabled. -/
def git_commands (job : JobSpec) (cfg : RunnerCfg) : List String :=
  if job.gitDepth ≤ 0 then []
  else
    ["git clone --depth=" ++ toString job.gitDepth ++ " " ++ cfg.gitUrl ++ " .",
     "git checkout " ++ job.revision] ++
    (if job.gitSubmodules then ["git submodule update --init --recursive"]
     else [])

/-- The loop over a list of step names (run.py lines 304-306 and runner.py
lines 251-253): run each step that is present, stopping at the first step
whose commands fail. -/
def runStepList (exec : String → Bool) (steps : List (String × List String)) :
    List String → EngineSt → EngineSt × Bool
  | [], st => (st, true)
  | s :: rest, st =>
      match getStep steps s with
      | some cmds =>
          let res := shellRun exec cmds st
          if res.2 then runStepList exec steps rest res.1 else (res.1, false)
      | none => runStepList exec steps rest st

/-- The setup phase of run.py (lines 288-313): prolog script, git commands and
the three pre-script steps share one try block whose CalledProcessError
handler finishes the job as errored. -/
def runSetup (exec : String → Bool) (cfg : RunnerCfg) (job : JobSpec)
    (st : EngineSt) : EngineSt × Bool :=
  let pr := match cfg.prolog with
    | some p => shellRun exec [p] st
    | none => (st, true)
  if !pr.2 then (pr.1, false) else
  let gt := shellRun exec (git_commands job cfg) pr.1
  if !gt.2 then (gt.1, false) else
  runStepList exec job.steps ["before_install", "install", "before_script"] gt.1

/-- A step whose own failure is suppressed (contextlib.suppress around
shell.run): the commands run up to their first failure, execution continues
either way. -/
def runSuppressed (exec : String → Bool) (steps : List (String × List String))
    (name : String) (st : EngineSt) : EngineSt :=
  match getStep steps name with
  | some cmds => (shellRun exec cmds st).1
  | none => st

/-- The tail of run.py after the deploy step (lines 368-381): after_deploy and
after_script with failures suppressed, then finish_job(success). -/
def afterPhase (exec : String → Bool) (clock : Nat → Nat) (job : JobSpec)
    (st : EngineSt) : EngineSt :=
  let st1 := runSuppressed exec job.steps "after_deploy" st
  let st2 := runSuppressed exec job.steps "after_script" st1
  finishJob clock Status.success st2

/-- The deploy step of run.py (lines 359-366): failure finishes the job as
failed. -/
def deployStep (exec : String → Bool) (clock : Nat → Nat) (job : JobSpec)
    (st : EngineSt) : EngineSt :=
  match getStep job.steps "deploy" with
  | some cmds =>
      let res := shellRun exec cmds st
      if !res.2 then finishJob clock Status.failed res.1
      else afterPhase exec clock job res.1
  | none => afterPhase exec clock job st

/-- The before_deploy step of run.py (lines 349-357): failure finishes the job
as errored. -/
def deployPhase (exec : String → Bool) (clock : Nat → Nat) (job : JobSpec)
    (st : EngineSt) : EngineSt :=
  match getStep job.steps "before_deploy" with
  | some cmds =>
      let res := shellRun exec cmds st
      if !res.2 then finishJob clock Status.errored res.1
      else deployStep exec clock job res.1
  | none => deployStep exec clock job st

/-- The step-execution engine of run.py (main block, lines 254-381), starting
after the job has been loaded: start_job, the setup phase, then the script
block - run only when a script step is defined, its failure running the
(misspelled) after_failed step suppressed and finishing as failed, its
success running after_success suppressed - then the deploy steps and the
final finish_job(success). -/
def runPyEngine (exec : String → Bool) (clock : Nat → Nat) (cfg : RunnerCfg)
    (job : JobSpec) : EngineSt :=
  let st := startJob clock initialEngineSt
  let setup := runSetup exec cfg job st
  if !setup.2 then finishJob clock Status.errored setup.1 else
  match getStep job.steps "script" with
  | some script =>
      let res := shellRun exec script setup.1
      if !res.2 then
        let st3 := runSuppressed exec job.steps "after_failed" res.1
        finishJob clock Status.failed st3
      else
        let st3 := runSuppressed exec job.steps "after_success" res.1
        deployPhase exec clock job st3
  | none => deployPhase exec clock job setup.1

/-- The raw git mapping of a legacy job (runner.py lines 219-238): depth
defaults to 50 only when the key is missing, and submodules are skipped only
when the raw value is the string false. -/
structure LegacyGit where
  depth : Option Int
  submodules : Option String
deriving DecidableEq

/-- A job as runner.py sees it: the raw step mapping resolved through the
legacy Job key fallback, the optional raw git mapping (job['git'] raises
KeyError when neither job nor pipeline defines one), and the revision. -/
structure LegacyJobSpec where
  steps : List (String × List String)
  git : Option LegacyGit
  revision : String
deriving DecidableEq

/-- The git command list runner.py builds (lines 221-238). -/
def legacyGitCommands (g : LegacyGit) (cfg : RunnerCfg) (rev : String) :
    List String :=
  ["git clone --depth=" ++ toString (g.depth.getD 50) ++ " " ++ cfg.gitUrl ++
     " .",
   "git checkout " ++ rev] ++
  (match g.submodules with
   | none => ["git submodule update --init --recursive"]
   | some v =>
       if v = "false" then [] else ["git submodule update --init --recursive"])

/-- The names runner.py imports at module level (runner.py lines 23-29); the
colors module used by the missing-script banner (line 282) is not among them. -/
def runnerImports : List String :=
  ["jamesci", "os", "subprocess", "sys", "tempfile", "time", "yaml"]

/-- The tail of runner.py after the script block (lines 315-328): after_deploy
and after_script suppressed, then the final finish_job call, which runner.py
line 328 invokes with Status.errored. -/
def legacyAfter (exec : String → Bool) (clock : Nat → Nat)
    (job : LegacyJobSpec) (st : EngineSt) : EngineSt × Bool :=
  let st1 := runSuppressed exec job.steps "after_deploy" st
  let st2 := runSuppressed exec job.steps "after_script" st1
  (finishJob clock Status.errored st2, false)

/-- The deploy step of runner.py (lines 307-313). -/
def legacyTail (exec : String → Bool) (clock : Nat → Nat)
    (job : LegacyJobSpec) (st : EngineSt) : EngineSt × Bool :=
  match getStep job.steps "deploy" with
  | some cmds =>
      let res := shellRun exec cmds st
      if !res.2 then (finishJob clock Status.failed res.1, false)
      else legacyAfter exec clock job res.1
  | none => legacyAfter exec clock job st

/-- The step-execution engine of runner.py (main, lines 152-328).  The second
component is true when an exception escapes main uncaught (a crash through the
excepthook): job['git'] raising KeyError when no git mapping exists, and the
missing-script banner raising NameError because runner.py never imports
colors.  All ordinary step failures finish the job and exit cleanly. -/
def legacyEngine (exec : String → Bool) (clock : Nat → Nat) (cfg : RunnerCfg)
    (job : LegacyJobSpec) : EngineSt × Bool :=
  let st0 := startJob clock initialEngineSt
  let pr := match cfg.prolog with
    | some p => shellRun exec [p] st0
    | none => (st0, true)
  if !pr.2 then (finishJob clock Status.errored pr.1, false) else
  match job.git with
  | none => (pr.1, true)
  | some g =>
      let gt :=
        if g.depth.getD 50 > 0 then
          shellRun exec (legacyGitCommands g cfg job.revision) pr.1
        else (pr.1, true)
      if !gt.2 then (finishJob clock Status.errored gt.1, false) else
      let pre := runStepList exec job.steps
        ["before_install", "install", "before_script"] gt.1
      if !pre.2 then (finishJob clock Status.errored pre.1, false) else
      match getStep job.steps "script" with
      | none =>
          if runnerImports.contains "colors" then
            (finishJob clock Status.errored pre.1, false)
          else (pre.1, true)
      | some script =>
          let res := shellRun exec script pre.1
          if !res.2 then
            let stf := runSuppressed exec job.steps "after_failed" res.1
            (finishJob clock Status.failed stf, false)
          else
            let sts := runSuppressed exec job.steps "after_success" res.1
            match getStep job.steps "before_deploy" with
            | some cmds =>
                let bd := shellRun exec cmds sts
                if !bd.2 then (finishJob clock Status.errored bd.1, false)
                else legacyTail exec clock job bd.1
            | none => legacyTail exec clock job sts

/-- The module-level names bound in runner.py when its excepthook fires: the
imports plus the top-level defs, the eh and config assignments of the
__main__ block, and the logfile that main declares global.  The name job is
never among them - main's job variable is local to main. -/
def runnerModuleNames : List String :=
  runnerImports ++
    ["Tee", "ExceptionHandler", "parse_config", "finish_job", "main",
     "eh", "config", "logfile"]

/-- The local names of ExceptionHandler.handler in runner.py (lines 73-97). -/
def handlerLocalNames : List String :=
  ["cls", "exception_type", "exception", "traceback"]

/-- ExceptionHandler.handler of runner.py (lines 73-97): when cls.job is set,
line 88 evaluates `job.status = jamesci.Status.errored`; the name job is
resolved through the handler's locals and the module globals, and raises
NameError when neither binds it, leaving the stored job state untouched. -/
def legacyRunnerHandler (jobSet : Bool) (st : EngineSt) :
    Except String EngineSt :=
  if jobSet then
    if handlerLocalNames.contains "job" || runnerModuleNames.contains "job" then
      Except.ok { st with status := Status.errored }
    else Except.error "NameError: name job is not defined"
  else Except.ok st

/-- ExceptionHandler.handler of run.py (lines 77-106): when cls.job is set,
the handler calls finish_job(cls.job, Status.errored, cls.config), which
(through the spec-modelled Job.finish_job) stores errored with an end
timestamp under the exclusive lock. -/
def runPyHandler (clock : Nat → Nat) (jobSet : Bool) (st : EngineSt) :
    EngineSt :=
  if jobSet then finishJob clock Status.errored st else st

deriving instance DecidableEq for Except

/-- The stored state of a job that was running when the runner crashed. -/
def jobStC5 : EngineSt :=
  { status := Status.running, metaStart := some 0, metaEnd := none,
    tick := 1, trace := [] }

/-- C5: when an uncaught fault fires the registered exception handler of the
legacy runner, the handler itself raises NameError (runner.py line 88 reads
the global name job, which is never bound at module level), so the stored
status stays running with no end timestamp instead of being forced to
errored; the rewritten handler of run.py does force errored with an end
timestamp. -/
theorem runner_handler_cannot_set_errored :
    legacyRunnerHandler true jobStC5 =
      Except.error "NameError: name job is not defined" ∧
    jobStC5.status = Status.running ∧
    jobStC5.metaEnd = none ∧
    (runPyHandler (fun t => t) true jobStC5).status = Status.errored ∧
    (runPyHandler (fun t => t) true jobStC5).metaEnd = some 1 := by
  decide

/-- A runner configuration with no prolog script. -/
def cfgC0 : RunnerCfg := ⟨none, "git://host/repo"⟩

/-- The C6 job: script fails, after_failure defined, cloning disabled. -/
def jobC6 : JobSpec :=
  ⟨stepsInit [("script", StepVal.list ["false"]),
              ("after_failure", StepVal.str "echo x")],
   0, true, "rev1"⟩

/-- Shell oracle for C6: every command succeeds except false. -/
def execC6 : String → Bool := fun c => !(c == "false")

/-- C6: with script=[false] and after_failure=[echo x], the engine of run.py
finishes the job as failed but never executes the after_failure command: its
failure branch looks up the key after_failed (run.py line 329), and no Steps
mapping can ever contain that key since it is not a valid step name. -/
theorem after_failure_never_executed :
    (runPyEngine execC6 (fun t => t) cfgC0 jobC6).status = Status.failed ∧
    (runPyEngine execC6 (fun t => t) cfgC0 jobC6).trace = ["false"] ∧
    "echo x" ∉ (runPyEngine execC6 (fun t => t) cfgC0 jobC6).trace ∧
    (∀ data : List (String × StepVal),
      getStep (stepsInit data) "after_failed" = none) := by
  refine ⟨by decide, by decide, by decide, ?_⟩
  intro data
  exact lookup_stepsInitOn_not_mem validSteps data "after_failed" (by decide)

/-- Shell oracle under which every command succeeds. -/
def execTrue : String → Bool := fun _ => true

/-- The C7 job for run.py: no steps at all, cloning disabled. -/
def jobC7 : JobSpec := ⟨stepsInit [], 0, true, "rev1"⟩

/-- The C7 job for runner.py: no steps, git depth 0. -/
def jobC7L : LegacyJobSpec := ⟨[], some ⟨some 0, none⟩, "rev1"⟩

/-- C7: a job defining no script step is not a configuration error at
execution time in run.py - the engine skips the script block entirely and
finishes the job as success, not errored; and in runner.py the KeyError
branch that should set errored crashes instead (NameError on the unimported
colors module), leaving the stored status running. -/
theorem missing_script_reaches_success :
    (runPyEngine execTrue (fun t => t) cfgC0 jobC7).status = Status.success ∧
    (runPyEngine execTrue (fun t => t) cfgC0 jobC7).status ≠ Status.errored ∧
    (legacyEngine execTrue (fun t => t) cfgC0 jobC7L).2 = true ∧
    (legacyEngine execTrue (fun t => t) cfgC0 jobC7L).1.status =
      Status.running := by
  decide

/-- The C8 job for run.py: script=[true] and nothing else. -/
def jobC8 : JobSpec := ⟨stepsInit [("script", StepVal.list ["true"])], 50, true, "abc"⟩

/-- The C8 job for runner.py: script=[true], git depth 0. -/
def jobC8L : LegacyJobSpec := ⟨[("script", ["true"])], some ⟨some 0, none⟩, "abc"⟩

/-- C8: with script=[true] and no other steps, run.py finishes the job as
success with meta.start less than or equal to meta.end; but the legacy
runner.py, whose final finish_job call (line 328) passes Status.errored,
stores errored for the very same successful job. -/
theorem script_true_final_status :
    (runPyEngine execTrue (fun t => t) cfgC0 jobC8).status = Status.success ∧
    (runPyEngine execTrue (fun t => t) cfgC0 jobC8).metaStart = some 0 ∧
    (runPyEngine execTrue (fun t => t) cfgC0 jobC8).metaEnd = some 5 ∧
    (runPyEngine execTrue (fun t => t) cfgC0 jobC8).metaStart.getD 99 ≤
      (runPyEngine execTrue (fun t => t) cfgC0 jobC8).metaEnd.getD 0 ∧
    (legacyEngine execTrue (fun t => t) cfgC0 jobC8L).1.status =
      Status.errored ∧
    (legacyEngine execTrue (fun t => t) cfgC0 jobC8L).1.metaEnd = some 2 := by
  decide
